import Mathlib

/-!
Verification of the GunfireRunesOptimizer core (src/models.py, src/solver.py).

Modelling conventions:
* Python floats are modelled as exact rationals (ℚ).  Every concrete value
  asserted below is chosen so that the corresponding float computation is
  robust (comparisons have slack far above float rounding error).
* Python objects are modelled with an explicit object store ("heap"):
  a `BoardState` owns a list of rune objects and a list of stone objects,
  and both the `grid` and the `runes`/`stones` collections hold indices
  (references) into those stores.  This is needed because `solver.py`
  deep-copies the grid when snapshotting the best state, which makes the
  grid occupants distinct objects from the entities in `state.runes`.
* A Python `dict` is modelled as an association list with unique keys
  (`dictGet`/`dictSet`/`dictDel` below implement lookup, insert-or-update
  and delete; every state reachable by the solver has unique grid keys).
-/

namespace Runes

/-- Grid coordinates, as in `grid: Dict[Tuple[int, int], Any]`. -/
abbrev Pos := Int × Int

/-- Rune from models.py: id, max_level, current_level (default 0), raw_score (default 0). -/
structure Rune where
  id : String
  max_level : Int
  current_level : Int := 0
  raw_score : Int := 0
  deriving DecidableEq, Repr

/-- StoneVector from models.py: dx, dy, boost. -/
structure StoneVector where
  dx : Int
  dy : Int
  boost : Int
  deriving DecidableEq, Repr

/-- Stone from models.py: id, base_vectors, rotation (constructor sets 0). -/
structure Stone where
  id : String
  base_vectors : List StoneVector
  rotation : Nat := 0
  deriving DecidableEq, Repr

/-- One clockwise 90-degree step, the loop body `dx, dy = dy, -dx`. -/
def rotStepCW (p : Int × Int) : Int × Int := (p.2, -p.1)

/-- Stone.get_active_vectors: for each base vector apply the rotation step
`rotation` times and pair the result with the unchanged boost. -/
def get_active_vectors (s : Stone) : List (Int × Int × Int) :=
  s.base_vectors.map (fun v =>
    let d := rotStepCW^[s.rotation] (v.dx, v.dy)
    (d.1, d.2, v.boost))

/-- Grid occupant: a reference to a rune object or to a stone object. -/
inductive Occ where
  | rune (ref : Nat)
  | stone (ref : Nat)
  deriving DecidableEq, Repr

/-- BoardState from models.py, with the object stores made explicit.
`runeHeap`/`stoneHeap` are the object stores; `grid`, `runes`, `stones`
hold references into them (in Python these are object references). -/
structure BoardState where
  runeHeap : List Rune
  stoneHeap : List Stone
  grid : List (Pos × Occ) := []
  runes : List Nat
  stones : List Nat
  deriving DecidableEq, Repr

/-- Default rune object used to totalise heap reads (never reachable from
states the Python program builds: there every reference is valid). -/
def zeroRune : Rune := { id := "", max_level := 0 }

/-- Default stone object used to totalise heap reads. -/
def zeroStone : Stone := { id := "", base_vectors := [] }

/-- Read a rune object from the store. -/
def readR (h : List Rune) (i : Nat) : Rune := h.getD i zeroRune

/-- Read a stone object from the store. -/
def readS (h : List Stone) (i : Nat) : Stone := h.getD i zeroStone

section Dict

variable {κ α : Type} [DecidableEq κ]

/-- Dictionary lookup (`d.get(k)` / `k in d`). -/
def dictGet : List (κ × α) → κ → Option α
  | [], _ => none
  | e :: es, k => if e.1 = k then some e.2 else dictGet es k

/-- Dictionary insert-or-update (`d[k] = v`). -/
def dictSet : List (κ × α) → κ → α → List (κ × α)
  | [], k, v => [(k, v)]
  | e :: es, k, v => if e.1 = k then (k, v) :: es else e :: dictSet es k v

/-- Dictionary delete (`del d[k]`; identity when the key is absent, which
matches the guarded `if k in d: del d[k]` uses in solver.py). -/
def dictDel : List (κ × α) → κ → List (κ × α)
  | [], _ => []
  | e :: es, k => if e.1 = k then dictDel es k else e :: dictDel es k

end Dict

/-- Reset loop of calculate_total_score: `for r in self.runes: r.raw_score = 0`. -/
def resetPhase (h : List Rune) (refs : List Nat) : List Rune :=
  refs.foldl (fun h ref => h.set ref { readR h ref with raw_score := 0 }) h

/-- Partition step: positions of the grid occupants that are runes. -/
def runePositionsOf (g : List (Pos × Occ)) : List (Pos × Nat) :=
  g.filterMap (fun e => match e.2 with | .rune i => some (e.1, i) | _ => none)

/-- Partition step: positions of the grid occupants that are stones. -/
def stonePositionsOf (g : List (Pos × Occ)) : List (Pos × Nat) :=
  g.filterMap (fun e => match e.2 with | .stone i => some (e.1, i) | _ => none)

/-- Inner boost update: if the target cell holds a rune, add the boost to its
raw_score, otherwise do nothing. -/
def addBoost (runePos : List (Pos × Nat)) (h : List Rune) (target : Pos) (b : Int) :
    List Rune :=
  match dictGet runePos target with
  | some ref => h.set ref { readR h ref with raw_score := (readR h ref).raw_score + b }
  | none => h

/-- Boost contribution of one placed stone: walk its active vectors and add
each boost to the rune (if any) at `(sx+dx, sy+dy)`. -/
def applyStone (runePos : List (Pos × Nat)) (sp : Pos) (st : Stone) (h : List Rune) :
    List Rune :=
  (get_active_vectors st).foldl
    (fun h v => addBoost runePos h (sp.1 + v.1, sp.2 + v.2.1) v.2.2) h

/-- Boost application phase of calculate_total_score (runs after the reset). -/
def boostPhase (s : BoardState) : List Rune :=
  (stonePositionsOf s.grid).foldl
    (fun h e => applyStone (runePositionsOf s.grid) e.1 (readS s.stoneHeap e.2) h)
    (resetPhase s.runeHeap s.runes)

/-- The expression `max((r.max_level for r in self.runes), default=1)`. -/
def maxPossibleLevel (h : List Rune) (refs : List Nat) : Int :=
  match refs.map (fun i => (readR h i).max_level) with
  | [] => 1
  | x :: xs => xs.foldl max x

/-- Score contribution of one rune in the summation loop: the capped level,
plus the proportional priority bonus `final * (max_level / max_possible) * 0.5`
under its guard, plus the 0.5 even-level bonus under its guard. -/
def scoreContrib (maxPoss : Int) (r : Rune) (final : Int) : ℚ :=
  (final : ℚ)
    + (if 0 < r.max_level ∧ 0 < maxPoss then
        (final : ℚ) * ((r.max_level : ℚ) / (maxPoss : ℚ)) * (1 / 2) else 0)
    + (if 0 < final ∧ final % 2 = 0 then (1 / 2 : ℚ) else 0)

/-- One pass of the summation loop: cap the rune's level, write
current_level, and add the rune's contribution to the running total. -/
def scoreStep (maxPoss : Int) (acc : List Rune × ℚ) (ref : Nat) : List Rune × ℚ :=
  (acc.1.set ref { readR acc.1 ref with
      current_level := min (readR acc.1 ref).raw_score (readR acc.1 ref).max_level },
    acc.2 + scoreContrib maxPoss (readR acc.1 ref)
      (min (readR acc.1 ref).raw_score (readR acc.1 ref).max_level))

/-- Summation phase of calculate_total_score over `self.runes`. -/
def scorePhase (h : List Rune) (refs : List Nat) : List Rune × ℚ :=
  refs.foldl (scoreStep (maxPossibleLevel h refs)) (h, 0)

/-- BoardState.calculate_total_score from models.py.  Returns the state with
the updated rune store (the Python method mutates the rune objects in place)
together with the weighted total score. -/
def calculate_total_score (s : BoardState) : BoardState × ℚ :=
  let h := boostPhase s
  let res := scorePhase h s.runes
  ({ s with runeHeap := res.1 }, res.2)

/-- Python `int(...)` on a float/rational: truncation toward zero. -/
def pyInt (q : ℚ) : Int := if q < 0 then ⌈q⌉ else ⌊q⌋

/-- BoardState.get_integer_score from models.py: the integer part of the
weighted score (the method recomputes the score and truncates it). -/
def get_integer_score (s : BoardState) : Int := pyInt (calculate_total_score s).2

/-- SolverConfig from solver.py (floats as exact rationals). -/
structure SolverConfig where
  iterations : Int := 80000
  initial_temperature : ℚ := 12
  cooling_rate : ℚ := 9997 / 10000
  min_temperature : ℚ := 1 / 1000
  rotation_probability : ℚ := 2 / 5
  num_restarts : Int := 3
  deriving DecidableEq, Repr

/-- One placement step of _create_initial_state: accumulator is
(item index, grid, stone store, remaining rotation draws).  An item is
placed only while grid positions remain; each placed stone consumes one
`random.randint(0, 3)` draw (draws are taken mod 4 so that an arbitrary
natural stream enumerates exactly the values randint can produce). -/
def placeStep (poss : List Pos)
    (acc : Nat × List (Pos × Occ) × List Stone × List Nat) (item : Occ) :
    Nat × List (Pos × Occ) × List Stone × List Nat :=
  if acc.1 < poss.length then
    match item with
    | .stone ref =>
      (acc.1 + 1, dictSet acc.2.1 (poss.getD acc.1 (0, 0)) item,
        acc.2.2.1.set ref { readS acc.2.2.1 ref with rotation := acc.2.2.2.headD 0 % 4 },
        acc.2.2.2.tail)
    | .rune _ =>
      (acc.1 + 1, dictSet acc.2.1 (poss.getD acc.1 (0, 0)) item, acc.2.2.1, acc.2.2.2)
  else (acc.1 + 1, acc.2.1, acc.2.2.1, acc.2.2.2)

/-- _create_initial_state from solver.py.  `poss` is the shuffled list of the
grid positions (the result of `random.shuffle`), `rots` the stream of
rotation draws.  Items are `list(runes) + list(stones)`. -/
def create_initial_state (hR : List Rune) (hS : List Stone)
    (poss : List Pos) (rots : List Nat) : BoardState :=
  let items := (List.range hR.length).map Occ.rune ++ (List.range hS.length).map Occ.stone
  let res := items.foldl (placeStep poss) (0, [], hS, rots)
  { runeHeap := hR, stoneHeap := res.2.2.1, grid := res.2.1,
    runes := List.range hR.length, stones := List.range hS.length }

/-- Resolved random choices of one _mutate_in_place call: either the rotate
branch was taken (with the index drawn by random.choice into state.stones),
or the swap branch with the two drawn cells (resampled until distinct). -/
inductive MutChoice where
  | rotate (i : Nat)
  | swap (p1 p2 : Pos)
  deriving DecidableEq, Repr

/-- Undo information returned by _mutate_in_place: ("none", ...),
("rotate", stone, old_rot, ...) or ("swap", p1, p2, v1, v2). -/
inductive UndoToken where
  | noop
  | rotToken (ref : Nat) (oldRot : Nat)
  | swapToken (p1 p2 : Pos) (v1 v2 : Option Occ)
  deriving DecidableEq, Repr

/-- _mutate_in_place from solver.py.  The rotate branch is only drawn when
`state.stones` is nonempty; an out-of-range index is unreachable and is
mapped to the no-op token. -/
def mutate_in_place (s : BoardState) (c : MutChoice) : BoardState × UndoToken :=
  match c with
  | .rotate i =>
    match s.stones[i]? with
    | none => (s, .noop)
    | some ref =>
      let st := readS s.stoneHeap ref
      ({ s with stoneHeap := s.stoneHeap.set ref { st with rotation := (st.rotation + 1) % 4 } },
       .rotToken ref st.rotation)
  | .swap p1 p2 =>
    let v1 := dictGet s.grid p1
    let v2 := dictGet s.grid p2
    if v1 = none ∧ v2 = none then (s, .noop)
    else
      let g1 := match v1 with
        | some a => dictSet s.grid p2 a
        | none => dictDel s.grid p2
      let g2 := match v2 with
        | some b => dictSet g1 p1 b
        | none => dictDel g1 p1
      ({ s with grid := g2 }, .swapToken p1 p2 v1 v2)

/-- _revert_mutation from solver.py. -/
def revert_mutation (s : BoardState) (u : UndoToken) : BoardState :=
  match u with
  | .noop => s
  | .rotToken ref old =>
    let st := readS s.stoneHeap ref
    { s with stoneHeap := s.stoneHeap.set ref { st with rotation := old } }
  | .swapToken p1 p2 v1 v2 =>
    let g1 := match v1 with
      | some a => dictSet s.grid p1 a
      | none => dictDel s.grid p1
    let g2 := match v2 with
      | some b => dictSet g1 p2 b
      | none => dictDel g1 p2
    { s with grid := g2 }

/-- Self-contained image of `copy.deepcopy(current_state.grid)`: the grid
occupants are copied into fresh object stores and the copied grid references
those copies.  (In every state the solver reaches each entity occupies at
most one cell, so the per-entry copy below agrees with deepcopy's memoized
per-object copy.) -/
structure Snapshot where
  runeObjs : List Rune
  stoneObjs : List Stone
  grid : List (Pos × Occ)
  deriving DecidableEq, Repr

/-- Deep copy of the grid of a state (see Snapshot). -/
def snapshotOf (s : BoardState) : Snapshot :=
  s.grid.foldl
    (fun snap e =>
      match e.2 with
      | .rune i =>
        { snap with runeObjs := snap.runeObjs ++ [readR s.runeHeap i],
                    grid := snap.grid ++ [(e.1, .rune snap.runeObjs.length)] }
      | .stone i =>
        { snap with stoneObjs := snap.stoneObjs ++ [readS s.stoneHeap i],
                    grid := snap.grid ++ [(e.1, .stone snap.stoneObjs.length)] })
    { runeObjs := [], stoneObjs := [], grid := [] }

/-- The dict comprehension `{s.id: s.rotation for s in state.stones}`. -/
def rotationsOf (s : BoardState) : List (String × Nat) :=
  s.stones.foldl (fun d ref => let st := readS s.stoneHeap ref; dictSet d st.id st.rotation) []

/-- Loop state of solve_layout: current state and score, best snapshot with
its stone rotations and score, and the temperature. -/
structure SearchState where
  cur : BoardState
  curScore : ℚ
  best : Snapshot
  bestRots : List (String × Nat)
  bestScore : ℚ
  temp : ℚ

/-- Random draws consumed by one loop iteration: the resolved mutation
choice, and the outcome of the Metropolis comparison
`random.random() < math.exp(delta / temp)` (a Boolean determined by the
uniform draw; it is only consulted when the new score is not strictly
better). -/
structure IterChoice where
  mutation : MutChoice
  acceptDraw : Bool

/-- One iteration of the solve_layout loop.  A "none" mutation hits the
`continue` and skips everything, including the cooling update. -/
def annealStep (cfg : SolverConfig) (st : SearchState) (c : IterChoice) : SearchState :=
  let m := mutate_in_place st.cur c.mutation
  match m.2 with
  | .noop => { st with cur := m.1 }
  | u =>
    let ev := calculate_total_score m.1
    let newScore := ev.2
    let accept := if newScore > st.curScore then true else c.acceptDraw
    let st1 :=
      if accept then
        if newScore > st.bestScore then
          { st with cur := ev.1, curScore := newScore, bestScore := newScore,
                    best := snapshotOf ev.1, bestRots := rotationsOf ev.1 }
        else { st with cur := ev.1, curScore := newScore }
      else { st with cur := revert_mutation ev.1 u }
    let t := st1.temp * cfg.cooling_rate
    { st1 with temp := if t < cfg.min_temperature then cfg.min_temperature else t }

/-- The tail of solve_layout: `BoardState(grid=best_state_grid, runes=runes,
stones=stones)` followed by restoring each original stone's rotation from
`best_stone_rotations`.  The grid references the snapshot copies (appended
to the stores), while `runes`/`stones` keep referencing the original
objects. -/
def buildFinal (s : BoardState) (snap : Snapshot) (rots : List (String × Nat)) : BoardState :=
  let nR := s.runeHeap.length
  let nS := s.stoneHeap.length
  let grid := snap.grid.map (fun e =>
    (e.1, match e.2 with
          | Occ.rune j => Occ.rune (nR + j)
          | Occ.stone j => Occ.stone (nS + j)))
  let hS0 := s.stoneHeap ++ snap.stoneObjs
  let hS := s.stones.foldl
    (fun h ref =>
      let st := readS h ref
      h.set ref { st with rotation := (dictGet rots st.id).getD st.rotation }) hS0
  { runeHeap := s.runeHeap ++ snap.runeObjs, stoneHeap := hS, grid := grid,
    runes := s.runes, stones := s.stones }

/-- solve_layout from solver.py.  `poss`/`rots` are the initial-placement
draws and `draws` the per-iteration draws; `range(config.iterations)` runs
`iterations.toNat` times (a negative count runs zero times, as in Python). -/
def solve_layout (hR : List Rune) (hS : List Stone) (cfg : SolverConfig)
    (poss : List Pos) (rots : List Nat) (draws : Nat → IterChoice) : BoardState × ℚ :=
  let s0 := create_initial_state hR hS poss rots
  let ev := calculate_total_score s0
  let init : SearchState :=
    { cur := ev.1, curScore := ev.2, best := snapshotOf ev.1, bestRots := rotationsOf ev.1,
      bestScore := ev.2, temp := cfg.initial_temperature }
  let fin := (List.range cfg.iterations.toNat).foldl (fun st i => annealStep cfg st (draws i)) init
  (buildFinal fin.cur fin.best fin.bestRots, fin.bestScore)

/-- Random draws consumed by one restart. -/
structure RestartRand where
  poss : List Pos
  rots : List Nat
  draws : Nat → IterChoice

/-- Fresh rune copies made per restart: `Rune(r.id, r.max_level)`. -/
def freshRunes (runes : List Rune) : List Rune :=
  runes.map (fun r => { id := r.id, max_level := r.max_level })

/-- Fresh stone copies made per restart: `Stone(s.id, list(s.base_vectors))`
(rotation starts at 0 again). -/
def freshStones (stones : List Stone) : List Stone :=
  stones.map (fun s => { id := s.id, base_vectors := s.base_vectors })

/-- Body of one restart: fresh entity copies, then a full solve_layout run
on the restart's own random draws. -/
def restartOutcome (runes : List Rune) (stones : List Stone) (cfg : SolverConfig)
    (rand : RestartRand) : BoardState × ℚ :=
  solve_layout (freshRunes runes) (freshStones stones) cfg rand.poss rand.rots rand.draws

/-- Fold step of the restart loop: keep the new result only on strict
improvement. -/
def restartStep (runes : List Rune) (stones : List Stone) (cfg : SolverConfig)
    (rng : Nat → RestartRand) (acc : Option BoardState × ℚ) (i : Nat) :
    Option BoardState × ℚ :=
  if (restartOutcome runes stones cfg (rng i)).2 > acc.2 then
    (some (restartOutcome runes stones cfg (rng i)).1, (restartOutcome runes stones cfg (rng i)).2)
  else acc

/-- solve_with_restarts from solver.py.  The accumulator starts at
(None, -1.0); a `none` first component on return models the failing
`assert best_overall_state is not None`. -/
def solve_with_restarts (runes : List Rune) (stones : List Stone) (cfg : SolverConfig)
    (rng : Nat → RestartRand) : Option BoardState × ℚ :=
  (List.range cfg.num_restarts.toNat).foldl (restartStep runes stones cfg rng) (none, -1)

/-- Definition following the specification's words (the tier formula the
spec adopts, for comparison with the implemented scoring function):
100 times the capped level of the flagship rune (the first rune whose
max_level equals the global maximum), plus the sum of all capped levels,
plus 0.1 times the count of non-flagship runes that reached their max_level
exactly, plus 0.01 times the count of runes with positive even capped
level.  Levels are the capped levels the evaluation writes back. -/
def spec_hierarchy_score (s : BoardState) : ℚ :=
  let h := (calculate_total_score s).1.runeHeap
  let maxPoss := maxPossibleLevel h s.runes
  let flagPos := s.runes.findIdx (fun i => (readR h i).max_level == maxPoss)
  let flagLevel := (readR h (s.runes.getD flagPos 0)).current_level
  let total := (s.runes.map (fun i => (readR h i).current_level)).sum
  let maxed := ((s.runes.eraseIdx flagPos).filter
    (fun i => (readR h i).current_level == (readR h i).max_level)).length
  let evens := (s.runes.filter
    (fun i => decide (0 < (readR h i).current_level) &&
              decide ((readR h i).current_level % 2 = 0))).length
  100 * (flagLevel : ℚ) + (total : ℚ) + (1 / 10) * (maxed : ℚ) + (1 / 100) * (evens : ℚ)

/-- Definition following the specification's words: `total_integer_level`,
the plain integer sum of the capped levels of all runes (no weighting). -/
def spec_total_integer_level (s : BoardState) : Int :=
  let h := (calculate_total_score s).1.runeHeap
  (s.runes.map (fun i => (readR h i).current_level)).sum

/-- The rotation advance performed by the rotate mutation: `(r + 1) % 4`. -/
def advanceRot (r : Nat) : Nat := (r + 1) % 4

/-- Board of the repository's test_priority_hierarchy, first scenario:
runes of max level 10 and 6, one stone boosting the max-10 rune by 5
(the max-6 rune is in `runes` but unplaced). -/
def stateA : BoardState :=
  { runeHeap := [{ id := "R10", max_level := 10 }, { id := "R6", max_level := 6 }],
    stoneHeap := [{ id := "K1", base_vectors := [{ dx := 1, dy := 0, boost := 5 }] }],
    grid := [((0, 0), .stone 0), ((1, 0), .rune 0)],
    runes := [0, 1], stones := [0] }

/-- Board of the repository's test_priority_hierarchy, second scenario:
runes of max level 10 and 6, one stone boosting the max-6 rune by 6. -/
def stateB : BoardState :=
  { runeHeap := [{ id := "R10", max_level := 10 }, { id := "R6", max_level := 6 }],
    stoneHeap := [{ id := "K1", base_vectors := [{ dx := 1, dy := 0, boost := 6 }] }],
    grid := [((0, 0), .stone 0), ((1, 0), .rune 1)],
    runes := [0, 1], stones := [0] }

/-- Single rune of max level 10 boosted by 5: capped-level sum is 5, while
the weighted score is 7.5. -/
def stateC3 : BoardState :=
  { runeHeap := [{ id := "R1", max_level := 10 }],
    stoneHeap := [{ id := "K1", base_vectors := [{ dx := 1, dy := 0, boost := 5 }] }],
    grid := [((0, 0), .stone 0), ((1, 0), .rune 0)],
    runes := [0], stones := [0] }

/-- Scenario board of the capping claim: one rune with max_level 3 targeted
by a single boost-10 vector. -/
def stateC8 : BoardState :=
  { runeHeap := [{ id := "R1", max_level := 3 }],
    stoneHeap := [{ id := "K1", base_vectors := [{ dx := 1, dy := 0, boost := 10 }] }],
    grid := [((0, 0), .stone 0), ((1, 0), .rune 0)],
    runes := [0], stones := [0] }

/-- Input collection for the solver runs: one rune of max level 3. -/
def runesEx : List Rune := [{ id := "R1", max_level := 3 }]

/-- Input collection for the solver runs: one stone boosting its right
neighbour by 3. -/
def stonesEx : List Stone := [{ id := "K1", base_vectors := [{ dx := 1, dy := 0, boost := 3 }] }]

/-- A zero-iteration configuration (the annealing loop body never runs). -/
def cfgIters0 : SolverConfig := { iterations := 0 }

/-- A fixed per-iteration draw stream (only its type matters for runs with
zero iterations). -/
def drawsEx : Nat → IterChoice := fun _ => { mutation := .swap (0, 0) (0, 1), acceptDraw := false }

/-- A fixed restart draw stream: the rune is placed at (1,0), the stone at
(0,0) with rotation draw 0. -/
def rngEx : Nat → RestartRand :=
  fun _ => { poss := [(1, 0), (0, 0)], rots := [0], draws := drawsEx }

/-- A small concrete search-loop state over an empty board, used to exercise
one annealing iteration. -/
def searchStateEx : SearchState :=
  { cur := { runeHeap := [], stoneHeap := [], grid := [], runes := [], stones := [] },
    curScore := 0,
    best := { runeObjs := [], stoneObjs := [], grid := [] },
    bestRots := [], bestScore := 0, temp := 12 }

/-- The iteration draw that picks the two empty cells (0,0) and (0,1):
the mutation is a no-op on an empty grid. -/
def noopDrawEx : IterChoice := { mutation := .swap (0, 0) (0, 1), acceptDraw := false }

section DictLaws

variable {κ α : Type} [DecidableEq κ]

theorem dictGet_set_self (g : List (κ × α)) (k : κ) (v : α) :
    dictGet (dictSet g k v) k = some v := by
  induction g with
  | nil => simp [dictGet, dictSet]
  | cons e es ih =>
    by_cases h : e.1 = k
    · simp [dictSet, h, dictGet]
    · simp [dictSet, h, dictGet, ih]

theorem dictGet_set_ne (g : List (κ × α)) (k k' : κ) (v : α) (h : k ≠ k') :
    dictGet (dictSet g k v) k' = dictGet g k' := by
  induction g with
  | nil => simp [dictGet, dictSet, h]
  | cons e es ih =>
    by_cases he : e.1 = k
    · simp [dictSet, he, dictGet, h]
    · by_cases he' : e.1 = k'
      · have hks : k' ≠ k := fun hh => h hh.symm
        simp [dictSet, he, dictGet, he', hks]
      · simp [dictSet, he, dictGet, he', ih]

theorem dictGet_del_self (g : List (κ × α)) (k : κ) :
    dictGet (dictDel g k) k = none := by
  induction g with
  | nil => simp [dictGet, dictDel]
  | cons e es ih =>
    by_cases h : e.1 = k
    · simp [dictDel, h, ih]
    · simp [dictDel, h, dictGet, ih]

theorem dictGet_del_ne (g : List (κ × α)) (k k' : κ) (h : k ≠ k') :
    dictGet (dictDel g k) k' = dictGet g k' := by
  induction g with
  | nil => simp [dictDel]
  | cons e es ih =>
    by_cases he : e.1 = k
    · have hne : e.1 ≠ k' := by rw [he]; exact h
      simp [dictDel, he, dictGet, hne, ih, h]
    · by_cases he' : e.1 = k'
      · have hks : k' ≠ k := fun hh => h hh.symm
        simp [dictDel, he, dictGet, he', hks]
      · simp [dictDel, he, dictGet, he', ih]

end DictLaws

section ListReads

theorem getD_set_eq {α : Type} (l : List α) (i : Nat) (a d : α) (hi : i < l.length) :
    (l.set i a).getD i d = a := by
  induction l generalizing i with
  | nil => simp at hi
  | cons x xs ih =>
    cases i with
    | zero => simp [List.set]
    | succ n =>
      simp only [List.set, List.getD_cons_succ]
      exact ih n (by simpa using hi)

theorem getD_set_ne {α : Type} (l : List α) (i j : Nat) (a d : α) (hij : i ≠ j) :
    (l.set i a).getD j d = l.getD j d := by
  induction l generalizing i j with
  | nil => simp [List.set]
  | cons x xs ih =>
    cases i with
    | zero =>
      cases j with
      | zero => exact absurd rfl hij
      | succ m => simp [List.set]
    | succ n =>
      cases j with
      | zero => simp [List.set]
      | succ m =>
        simp only [List.set, List.getD_cons_succ]
        exact ih n m (fun h => hij (by rw [h]))

theorem set_of_length_le {α : Type} (l : List α) (i : Nat) (a : α) (hi : l.length ≤ i) :
    l.set i a = l := by
  induction l generalizing i with
  | nil => simp
  | cons x xs ih =>
    cases i with
    | zero => simp at hi
    | succ n => simp [List.set, ih n (by simpa using hi)]

theorem set_getD_self {α : Type} (l : List α) (i : Nat) (d : α) :
    l.set i (l.getD i d) = l := by
  induction l generalizing i with
  | nil => simp
  | cons x xs ih =>
    cases i with
    | zero => simp [List.set]
    | succ n =>
      simp only [List.set, List.getD_cons_succ, List.cons.injEq, true_and]
      simpa using ih n

end ListReads

theorem rotStepCW_four : rotStepCW^[4] = id := by
  funext p
  show rotStepCW (rotStepCW (rotStepCW (rotStepCW p))) = p
  simp [rotStepCW]

theorem rotStepCW_iterate_mod (r : Nat) (p : Int × Int) :
    rotStepCW^[r % 4] p = rotStepCW^[r] p := by
  conv_rhs => rw [← Nat.div_add_mod r 4]
  rw [Function.iterate_add_apply, Function.iterate_mul, rotStepCW_four,
    Function.iterate_id, id_eq]

theorem get_active_vectors_mod (s : Stone) (r : Nat) :
    get_active_vectors { s with rotation := r % 4 } = get_active_vectors { s with rotation := r } := by
  unfold get_active_vectors
  exact List.map_congr_left (fun v _ => by rw [rotStepCW_iterate_mod])

/-- C9: get_active_vectors applies the clockwise step (dx,dy) -> (dy,-dx)
rotation-many times with the boost unchanged (it is a pure function of the
stone, so repeated calls agree by construction), the step is a 4-cycle
(rotation + 4 gives the same active vectors), and advancing the rotation
four times by the mutation's `(r + 1) % 4` returns the original active
vectors. -/
theorem C9_rotation_roundtrip (s : Stone) :
    get_active_vectors { s with rotation := s.rotation + 4 } = get_active_vectors s ∧
    (get_active_vectors s).map (fun v => v.2.2) = s.base_vectors.map StoneVector.boost ∧
    get_active_vectors
        { s with rotation := advanceRot (advanceRot (advanceRot (advanceRot s.rotation))) } =
      get_active_vectors s := by
  refine ⟨?_, ?_, ?_⟩
  · unfold get_active_vectors
    refine List.map_congr_left (fun v _ => ?_)
    simp only
    rw [Function.iterate_add_apply, rotStepCW_four, id_eq]
  · unfold get_active_vectors
    rw [List.map_map]
    rfl
  · have h4 : advanceRot (advanceRot (advanceRot (advanceRot s.rotation))) = s.rotation % 4 := by
      simp only [advanceRot]
      omega
    rw [h4]
    exact get_active_vectors_mod s s.rotation

/-- C1: refuted on the code.  On the two boards of the repository's own
test_priority_hierarchy (runes of max level 10 and 6; one stone boosting
either the max-10 rune to level 5 or the max-6 rune to level 6), the
implemented calculate_total_score returns 7.5 and 8.3 through its
proportional bonus formula, whereas the claimed hierarchy formula yields
505 and 6.11.  In particular the code does not contain the 100-weighted
flagship tier and it orders the two boards opposite to the claimed formula
(and opposite to the repository's own test assertion score_10 > score_6). -/
theorem C1_scoring_formula_divergence :
    (calculate_total_score stateA).2 = 15 / 2 ∧
    (calculate_total_score stateB).2 = 83 / 10 ∧
    spec_hierarchy_score stateA = 505 ∧
    spec_hierarchy_score stateB = 611 / 100 ∧
    ¬ (calculate_total_score stateB).2 < (calculate_total_score stateA).2 ∧
    spec_hierarchy_score stateB < spec_hierarchy_score stateA := by
  refine ⟨?_, ?_, ?_, ?_, ?_, ?_⟩ <;>
    norm_num [calculate_total_score, boostPhase, scorePhase, resetPhase, runePositionsOf,
      stonePositionsOf, applyStone, addBoost, get_active_vectors, readR, readS, dictGet,
      maxPossibleLevel, scoreStep, scoreContrib, spec_hierarchy_score, spec_total_integer_level,
      zeroRune, zeroStone, stateA, stateB, rotStepCW, List.foldl_cons, List.foldl_nil,
      List.filterMap_cons, List.filterMap_nil, List.map_cons, List.map_nil,
      Function.iterate_zero, Function.iterate_succ, List.getD, List.getElem?_cons_zero,
      List.getElem?_cons_succ, List.set_cons_zero, List.set_cons_succ, Option.getD_some,
      Option.getD_none, List.getElem?_nil, List.findIdx, List.findIdx_cons, List.findIdx.go, List.eraseIdx,
      List.filter_cons, List.filter_nil, List.sum_cons, List.sum_nil]

/-- C3: refuted on the code.  get_integer_score truncates the weighted
score rather than returning the plain sum of capped levels: on a single
rune of max level 10 boosted to level 5 the capped-level sum is 5 but the
code returns int(7.5) = 7 (the repository's own test_priority_hierarchy
asserts the value 5 for this very board). -/
theorem C3_integer_score_divergence :
    get_integer_score stateC3 = 7 ∧
    spec_total_integer_level stateC3 = 5 ∧
    get_integer_score stateC3 ≠ spec_total_integer_level stateC3 := by
  refine ⟨?_, ?_, ?_⟩ <;>
    norm_num [get_integer_score, pyInt, calculate_total_score, boostPhase, scorePhase,
      resetPhase, runePositionsOf, stonePositionsOf, applyStone, addBoost, get_active_vectors,
      readR, readS, dictGet, maxPossibleLevel, scoreStep, scoreContrib,
      spec_total_integer_level, zeroRune, zeroStone, stateC3, rotStepCW, List.foldl_cons,
      List.foldl_nil, List.filterMap_cons, List.filterMap_nil, List.map_cons, List.map_nil,
      Function.iterate_zero, Function.iterate_succ, List.getD, List.getElem?_cons_zero,
      List.getElem?_cons_succ, List.set_cons_zero, List.set_cons_succ, Option.getD_some,
      Option.getD_none, List.getElem?_nil, List.sum_cons, List.sum_nil]

/-- C2: refuted on the code.  A zero-iteration run on one rune (max level 3)
and one stone (a single boost-3 vector hitting the rune) returns the best
score 4.5, but re-evaluating the returned state yields 0: the returned grid
references the deep-copied snapshot objects (the rune copy at store index 1)
while state.runes still references the original object (index 0), so the
boosts land on the copies and the score is summed over the un-boosted
originals. -/
theorem C2_returned_state_not_self_consistent :
    (solve_layout runesEx stonesEx cfgIters0 [(1, 0), (0, 0)] [0] drawsEx).2 = 9 / 2 ∧
    (calculate_total_score
        (solve_layout runesEx stonesEx cfgIters0 [(1, 0), (0, 0)] [0] drawsEx).1).2 = 0 ∧
    dictGet (solve_layout runesEx stonesEx cfgIters0 [(1, 0), (0, 0)] [0] drawsEx).1.grid
        ((1 : Int), (0 : Int)) = some (.rune 1) ∧
    (solve_layout runesEx stonesEx cfgIters0 [(1, 0), (0, 0)] [0] drawsEx).1.runes = [0] := by
  refine ⟨?_, ?_, ?_, ?_⟩ <;>
    norm_num [solve_layout, create_initial_state, placeStep, snapshotOf, rotationsOf,
      buildFinal, cfgIters0, runesEx, stonesEx, drawsEx, calculate_total_score, boostPhase,
      scorePhase, resetPhase, runePositionsOf, stonePositionsOf, applyStone, addBoost,
      get_active_vectors, readR, readS, dictGet, dictSet, maxPossibleLevel, scoreStep,
      scoreContrib, zeroRune, zeroStone, rotStepCW, List.foldl_cons, List.foldl_nil,
      List.filterMap_cons, List.filterMap_nil, List.map_cons, List.map_nil,
      Function.iterate_zero, Function.iterate_succ, List.getD, List.getElem?_cons_zero,
      List.getElem?_cons_succ, List.set_cons_zero, List.set_cons_succ, Option.getD_some,
      Option.getD_none, List.getElem?_nil, List.range_zero, List.range_succ, Int.toNat]

/-- C4: counterexample to the claim as stated.  With iterations = -5 and
num_restarts = 1 the driver performs no validation and returns a normal
result (a present best state with score 4.5) instead of raising an
invalid-configuration error: `range(-5)` simply runs the annealing loop
zero times. -/
theorem C4_counterexample_negative_iterations_returns_result :
    (solve_with_restarts runesEx stonesEx { iterations := -5, num_restarts := 1 } rngEx).1.isSome
      = true ∧
    (solve_with_restarts runesEx stonesEx { iterations := -5, num_restarts := 1 } rngEx).2
      = 9 / 2 := by
  refine ⟨?_, ?_⟩ <;>
    norm_num [solve_with_restarts, restartStep, restartOutcome, freshRunes, freshStones,
      rngEx, solve_layout, create_initial_state, placeStep, snapshotOf, rotationsOf,
      buildFinal, runesEx, stonesEx, drawsEx, calculate_total_score, boostPhase,
      scorePhase, resetPhase, runePositionsOf, stonePositionsOf, applyStone, addBoost,
      get_active_vectors, readR, readS, dictGet, dictSet, maxPossibleLevel, scoreStep,
      scoreContrib, zeroRune, zeroStone, rotStepCW, List.foldl_cons, List.foldl_nil,
      List.filterMap_cons, List.filterMap_nil, List.map_cons, List.map_nil,
      Function.iterate_zero, Function.iterate_succ, List.getD, List.getElem?_cons_zero,
      List.getElem?_cons_succ, List.set_cons_zero, List.set_cons_succ, Option.getD_some,
      Option.getD_none, List.getElem?_nil, List.range_zero, List.range_succ,
      show ((-5 : Int)).toNat = 0 from rfl, show ((1 : Int)).toNat = 1 from rfl,
      Option.isSome]

/-- C4 (amended): the code performs no configuration validation.  With
num_restarts below 1 the restart loop body never runs and the driver ends
with the (None, -1.0) accumulator — its final assertion that a best state
exists fails, which is an assertion error after the loop, not an
invalid-configuration error raised before search work.  With iterations
below 0 no error is raised at all: `range(iterations)` is empty, so the
call behaves exactly like a zero-iteration run and returns a normal
result. -/
theorem C4_amended_no_validation (runes : List Rune) (stones : List Stone)
    (cfg : SolverConfig) (rng : Nat → RestartRand) :
    (cfg.num_restarts ≤ 0 → solve_with_restarts runes stones cfg rng = (none, -1)) ∧
    (cfg.iterations < 0 → ∀ (hR : List Rune) (hS : List Stone) (poss : List Pos)
        (rots : List Nat) (draws : Nat → IterChoice),
      solve_layout hR hS cfg poss rots draws =
        solve_layout hR hS { cfg with iterations := 0 } poss rots draws) := by
  constructor
  · intro h
    have h0 : cfg.num_restarts.toNat = 0 := Int.toNat_of_nonpos h
    simp [solve_with_restarts, h0]
  · intro h hR hS poss rots draws
    have h0 : cfg.iterations.toNat = 0 := Int.toNat_of_nonpos (le_of_lt h)
    simp only [solve_layout, h0]
    rfl

/-- Witness for C4's amended claim at a concrete configuration. -/
theorem C4_amended_no_validation_witness :
    solve_with_restarts runesEx stonesEx { num_restarts := 0 } rngEx = (none, -1) :=
  (C4_amended_no_validation runesEx stonesEx { num_restarts := 0 } rngEx).1 (by decide)

/-- C5: counterexample to the claim as stated.  On an iteration whose
mutation is a no-op (both chosen cells of an empty grid), the `continue`
skips the cooling lines: the temperature stays at 12 instead of being
multiplied by the default cooling rate 0.9997 and clamped. -/
theorem C5_counterexample_noop_keeps_temperature :
    (annealStep {} searchStateEx noopDrawEx).temp = 12 ∧
    ¬ (annealStep {} searchStateEx noopDrawEx).temp =
        (if searchStateEx.temp * ({} : SolverConfig).cooling_rate <
              ({} : SolverConfig).min_temperature then
            ({} : SolverConfig).min_temperature
          else searchStateEx.temp * ({} : SolverConfig).cooling_rate) := by
  constructor
  · simp [annealStep, mutate_in_place, searchStateEx, noopDrawEx, dictGet]
  · simp only [annealStep, mutate_in_place, searchStateEx, noopDrawEx, dictGet]
    norm_num

/-- Temperature evolution of one loop iteration: unchanged on a no-op,
otherwise multiplied by the cooling rate and clamped. -/
theorem annealStep_temp (cfg : SolverConfig) (st : SearchState) (c : IterChoice) :
    (annealStep cfg st c).temp =
      if (mutate_in_place st.cur c.mutation).2 = UndoToken.noop then st.temp
      else (if st.temp * cfg.cooling_rate < cfg.min_temperature then cfg.min_temperature
            else st.temp * cfg.cooling_rate) := by
  unfold annealStep
  rcases hm : mutate_in_place st.cur c.mutation with ⟨sM, u⟩
  cases u with
  | noop => simp
  | rotToken ref old =>
    simp only [apply_ite (fun s : SearchState => s.temp)]
    split <;> simp_all
  | swapToken p1 p2 v1 v2 =>
    simp only [apply_ite (fun s : SearchState => s.temp)]
    split <;> simp_all

/-- C5 (amended): an iteration whose mutation is a no-op leaves the
temperature unchanged (the `continue` skips the cooling step); on every
iteration whose mutation was applied, the temperature is multiplied by the
cooling rate and clamped below at min_temperature; and with positive
temperature, cooling rate and floor, the temperature stays strictly
positive. -/
theorem C5_amended_cooling (cfg : SolverConfig) (st : SearchState) (c : IterChoice) :
    ((mutate_in_place st.cur c.mutation).2 = UndoToken.noop →
      (annealStep cfg st c).temp = st.temp) ∧
    ((mutate_in_place st.cur c.mutation).2 ≠ UndoToken.noop →
      (annealStep cfg st c).temp =
        (if st.temp * cfg.cooling_rate < cfg.min_temperature then cfg.min_temperature
         else st.temp * cfg.cooling_rate)) ∧
    (0 < st.temp → 0 < cfg.cooling_rate → 0 < cfg.min_temperature →
      0 < (annealStep cfg st c).temp) := by
  refine ⟨fun h => ?_, fun h => ?_, fun ht hc hmin => ?_⟩
  · rw [annealStep_temp, if_pos h]
  · rw [annealStep_temp, if_neg h]
  · rw [annealStep_temp]
    split
    · exact ht
    · split
      · exact hmin
      · positivity

/-- Witness for C5's amended claim: a concrete no-op iteration leaves the
temperature unchanged. -/
theorem C5_amended_cooling_witness :
    (annealStep ({} : SolverConfig) searchStateEx noopDrawEx).temp = searchStateEx.temp :=
  (C5_amended_cooling {} searchStateEx noopDrawEx).1 (by decide)


/-- C6: for every board state and every resolved mutation choice (rotate,
swap/move, or the no-op cases), immediately reverting with the returned
undo token restores the state exactly: the grid mapping agrees at every
position (including absent keys) and the stone store (hence every stone's
rotation) and all other components are equal. -/
theorem C6_mutate_revert_roundtrip (s : BoardState) (c : MutChoice) :
    (∀ p : Pos,
      dictGet (revert_mutation (mutate_in_place s c).1 (mutate_in_place s c).2).grid p =
        dictGet s.grid p) ∧
    (revert_mutation (mutate_in_place s c).1 (mutate_in_place s c).2).stoneHeap = s.stoneHeap ∧
    (revert_mutation (mutate_in_place s c).1 (mutate_in_place s c).2).runeHeap = s.runeHeap ∧
    (revert_mutation (mutate_in_place s c).1 (mutate_in_place s c).2).runes = s.runes ∧
    (revert_mutation (mutate_in_place s c).1 (mutate_in_place s c).2).stones = s.stones := by
  cases c with
  | rotate i =>
    cases hi : s.stones[i]? with
    | none => simp [mutate_in_place, hi, revert_mutation]
    | some ref =>
      refine ⟨?_, ?_, ?_, ?_, ?_⟩
      case refine_2 =>
        by_cases hlen : ref < s.stoneHeap.length
        · have hread : readS (s.stoneHeap.set ref
              { readS s.stoneHeap ref with rotation := ((readS s.stoneHeap ref).rotation + 1) % 4 }) ref
              = { readS s.stoneHeap ref with rotation := ((readS s.stoneHeap ref).rotation + 1) % 4 } := by
            unfold readS
            exact getD_set_eq _ _ _ _ hlen
          simp only [mutate_in_place, hi, revert_mutation, hread]
          rw [List.set_set]
          have heta : { readS s.stoneHeap ref with rotation := (readS s.stoneHeap ref).rotation }
              = readS s.stoneHeap ref := rfl
          rw [heta]
          unfold readS
          exact set_getD_self _ _ _
        · have hset : s.stoneHeap.set ref
              { readS s.stoneHeap ref with rotation := ((readS s.stoneHeap ref).rotation + 1) % 4 }
              = s.stoneHeap := set_of_length_le _ _ _ (Nat.le_of_not_lt hlen)
          simp only [mutate_in_place, hi, revert_mutation, hset]
          exact set_of_length_le _ _ _ (Nat.le_of_not_lt hlen)
      all_goals simp [mutate_in_place, hi, revert_mutation]
  | swap p1 p2 =>
    cases hv1 : dictGet s.grid p1 with
    | none =>
      cases hv2 : dictGet s.grid p2 with
      | none => simp [mutate_in_place, hv1, hv2, revert_mutation]
      | some b =>
        refine ⟨fun p => ?_, ?_, ?_, ?_, ?_⟩
        case refine_1 =>
          simp [mutate_in_place, hv1, hv2, revert_mutation]
          by_cases hp2 : p2 = p
          · subst hp2
            rw [dictGet_set_self, hv2]
          · rw [dictGet_set_ne _ _ _ _ hp2]
            by_cases hp1 : p1 = p
            · subst hp1
              rw [dictGet_del_self, hv1]
            · rw [dictGet_del_ne _ _ _ hp1, dictGet_set_ne _ _ _ _ hp1,
                dictGet_del_ne _ _ _ hp2]
        all_goals simp [mutate_in_place, hv1, hv2, revert_mutation]
    | some a =>
      cases hv2 : dictGet s.grid p2 with
      | none =>
        refine ⟨fun p => ?_, ?_, ?_, ?_, ?_⟩
        case refine_1 =>
          simp [mutate_in_place, hv1, hv2, revert_mutation]
          by_cases hp2 : p2 = p
          · subst hp2
            rw [dictGet_del_self, hv2]
          · rw [dictGet_del_ne _ _ _ hp2]
            by_cases hp1 : p1 = p
            · subst hp1
              rw [dictGet_set_self, hv1]
            · rw [dictGet_set_ne _ _ _ _ hp1, dictGet_del_ne _ _ _ hp1,
                dictGet_set_ne _ _ _ _ hp2]
        all_goals simp [mutate_in_place, hv1, hv2, revert_mutation]
      | some b =>
        refine ⟨fun p => ?_, ?_, ?_, ?_, ?_⟩
        case refine_1 =>
          simp [mutate_in_place, hv1, hv2, revert_mutation]
          by_cases hp2 : p2 = p
          · subst hp2
            rw [dictGet_set_self, hv2]
          · rw [dictGet_set_ne _ _ _ _ hp2]
            by_cases hp1 : p1 = p
            · subst hp1
              rw [dictGet_set_self, hv1]
            · rw [dictGet_set_ne _ _ _ _ hp1, dictGet_set_ne _ _ _ _ hp1,
                dictGet_set_ne _ _ _ _ hp2]
        all_goals simp [mutate_in_place, hv1, hv2, revert_mutation]



theorem scoreStep_raw_max (maxPoss : Int) (acc : List Rune × ℚ) (ref i : Nat) :
    (readR (scoreStep maxPoss acc ref).1 i).raw_score = (readR acc.1 i).raw_score ∧
    (readR (scoreStep maxPoss acc ref).1 i).max_level = (readR acc.1 i).max_level := by
  unfold scoreStep readR
  by_cases h : ref < acc.1.length
  · by_cases hi : ref = i
    · subst hi
      rw [getD_set_eq _ _ _ _ h]
      exact ⟨rfl, rfl⟩
    · rw [getD_set_ne _ _ _ _ _ hi]
      exact ⟨rfl, rfl⟩
  · rw [set_of_length_le _ _ _ (Nat.le_of_not_lt h)]
    exact ⟨rfl, rfl⟩

theorem scoreStep_eq_at (maxPoss : Int) (acc : List Rune × ℚ) (ref i : Nat)
    (h : (readR acc.1 i).current_level =
      min (readR acc.1 i).raw_score (readR acc.1 i).max_level) :
    (readR (scoreStep maxPoss acc ref).1 i).current_level =
      min (readR (scoreStep maxPoss acc ref).1 i).raw_score
        (readR (scoreStep maxPoss acc ref).1 i).max_level := by
  simp only [scoreStep, readR]
  by_cases hv : ref < acc.1.length
  · by_cases hi : ref = i
    · subst hi
      rw [getD_set_eq _ _ _ _ hv]
    · rw [getD_set_ne _ _ _ _ _ hi]
      exact h
  · rw [set_of_length_le _ _ _ (Nat.le_of_not_lt hv)]
    exact h

theorem scoreStep_establishes (maxPoss : Int) (acc : List Rune × ℚ) (ref : Nat) :
    (readR (scoreStep maxPoss acc ref).1 ref).current_level =
      min (readR (scoreStep maxPoss acc ref).1 ref).raw_score
        (readR (scoreStep maxPoss acc ref).1 ref).max_level := by
  simp only [scoreStep, readR]
  by_cases hv : ref < acc.1.length
  · rw [getD_set_eq _ _ _ _ hv]
  · rw [set_of_length_le _ _ _ (Nat.le_of_not_lt hv)]
    rw [List.getD_eq_getElem?_getD, List.getElem?_eq_none (Nat.le_of_not_lt hv)]
    rfl

theorem scoreFold_eq_at (maxPoss : Int) (refs : List Nat) (acc : List Rune × ℚ) (i : Nat)
    (h : i ∈ refs ∨ (readR acc.1 i).current_level =
      min (readR acc.1 i).raw_score (readR acc.1 i).max_level) :
    (readR (refs.foldl (scoreStep maxPoss) acc).1 i).current_level =
      min (readR (refs.foldl (scoreStep maxPoss) acc).1 i).raw_score
        (readR (refs.foldl (scoreStep maxPoss) acc).1 i).max_level := by
  induction refs generalizing acc with
  | nil =>
    rcases h with h | h
    · simp at h
    · exact h
  | cons r rs ih =>
    rw [List.foldl_cons]
    rcases h with h | h
    · rcases List.mem_cons.mp h with hr | hrs
      · subst hr
        exact ih _ (Or.inr (scoreStep_establishes maxPoss acc i))
      · exact ih _ (Or.inl hrs)
    · exact ih _ (Or.inr (scoreStep_eq_at maxPoss acc r i h))

theorem scoreFold_raw_max (maxPoss : Int) (refs : List Nat) (acc : List Rune × ℚ) (i : Nat) :
    (readR (refs.foldl (scoreStep maxPoss) acc).1 i).raw_score = (readR acc.1 i).raw_score ∧
    (readR (refs.foldl (scoreStep maxPoss) acc).1 i).max_level = (readR acc.1 i).max_level := by
  induction refs generalizing acc with
  | nil => exact ⟨rfl, rfl⟩
  | cons r rs ih =>
    rw [List.foldl_cons]
    have h1 := scoreStep_raw_max maxPoss acc r i
    have h2 := ih (scoreStep maxPoss acc r)
    exact ⟨h2.1.trans h1.1, h2.2.trans h1.2⟩

/-- C8: after every evaluation, each rune listed in state.runes carries
current_level = min(raw_score, max_level), while its raw_score is exactly
the accumulated (uncapped) boost left by the boost phase; and on the
concrete scenario board (one rune of max_level 3 hit by a single boost-10
vector) the rune ends with current_level 3 and raw_score 10. -/
theorem C8_capping (s : BoardState) (ref : Nat) (h : ref ∈ s.runes) :
    ((readR (calculate_total_score s).1.runeHeap ref).current_level =
      min (readR (calculate_total_score s).1.runeHeap ref).raw_score
        (readR (calculate_total_score s).1.runeHeap ref).max_level) ∧
    ((readR (calculate_total_score s).1.runeHeap ref).raw_score =
      (readR (boostPhase s) ref).raw_score) ∧
    ((readR (calculate_total_score stateC8).1.runeHeap 0).current_level = 3 ∧
      (readR (calculate_total_score stateC8).1.runeHeap 0).raw_score = 10) := by
  refine ⟨?_, ?_, ?_, ?_⟩
  · exact scoreFold_eq_at _ s.runes _ ref (Or.inl h)
  · exact (scoreFold_raw_max _ s.runes _ ref).1
  · decide
  · decide

/-- Witness for C8 at the scenario board: the capping equation holds for
its only rune. -/
theorem C8_capping_witness :
    (readR (calculate_total_score stateC8).1.runeHeap 0).current_level =
      min (readR (calculate_total_score stateC8).1.runeHeap 0).raw_score
        (readR (calculate_total_score stateC8).1.runeHeap 0).max_level :=
  (C8_capping stateC8 0 (by decide)).1


theorem restartStep_num_restarts (runes : List Rune) (stones : List Stone)
    (cfg : SolverConfig) (x : Int) (rng : Nat → RestartRand) :
    restartStep runes stones { cfg with num_restarts := x } rng =
      restartStep runes stones cfg rng := rfl

theorem solve_with_restarts_succ (runes : List Rune) (stones : List Stone)
    (cfg : SolverConfig) (rng : Nat → RestartRand) (N : ℕ) :
    solve_with_restarts runes stones { cfg with num_restarts := (N : Int) + 1 } rng =
      restartStep runes stones cfg rng
        (solve_with_restarts runes stones { cfg with num_restarts := (N : Int) } rng) N := by
  unfold solve_with_restarts
  have h1 : (({ cfg with num_restarts := (N : Int) + 1 } : SolverConfig)).num_restarts.toNat
      = N + 1 := by
    simp only
    omega
  have h2 : (({ cfg with num_restarts := (N : Int) } : SolverConfig)).num_restarts.toNat
      = N := by
    simp only
    omega
  rw [h1, h2, List.range_succ, List.foldl_append, List.foldl_cons, List.foldl_nil]
  simp only [restartStep_num_restarts]

/-- C7: restart monotonicity.  For every input, configuration and restart
random stream (a compatible stream: restart i always consumes the draws
`rng i`, so the first N restarts of both calls see identical draws), the
score returned with num_restarts = N + 1 is never strictly below the score
returned with num_restarts = N; and when the extra restart does not
strictly improve on the best of the first N (in particular on a tie), the
whole result — state and score — is that of the first N restarts, so the
earliest best is kept. -/
theorem C7_restart_monotonicity (runes : List Rune) (stones : List Stone)
    (cfg : SolverConfig) (rng : Nat → RestartRand) (N : ℕ) (hN : 1 ≤ N) :
    ((solve_with_restarts runes stones { cfg with num_restarts := (N : Int) } rng).2 ≤
      (solve_with_restarts runes stones { cfg with num_restarts := (N : Int) + 1 } rng).2) ∧
    ((restartOutcome runes stones cfg (rng N)).2 ≤
        (solve_with_restarts runes stones { cfg with num_restarts := (N : Int) } rng).2 →
      solve_with_restarts runes stones { cfg with num_restarts := (N : Int) + 1 } rng =
        solve_with_restarts runes stones { cfg with num_restarts := (N : Int) } rng) := by
  constructor
  · rw [solve_with_restarts_succ]
    unfold restartStep
    split
    · next hgt => exact le_of_lt hgt
    · exact le_refl _
  · intro hle
    rw [solve_with_restarts_succ]
    unfold restartStep
    rw [if_neg (not_lt.mpr hle)]

/-- Witness for C7 at a concrete input with N = 1. -/
theorem C7_restart_monotonicity_witness :
    (solve_with_restarts runesEx stonesEx { cfgIters0 with num_restarts := ((1 : ℕ) : Int) } rngEx).2 ≤
      (solve_with_restarts runesEx stonesEx
        { cfgIters0 with num_restarts := ((1 : ℕ) : Int) + 1 } rngEx).2 :=
  (C7_restart_monotonicity runesEx stonesEx cfgIters0 rngEx 1 (by decide)).1


theorem readR_max_set (h : List Rune) (ref i : Nat) (a : Rune)
    (ha : a.max_level = (readR h ref).max_level) :
    (readR (h.set ref a) i).max_level = (readR h i).max_level := by
  by_cases hv : ref < h.length
  · by_cases hri : ref = i
    · subst hri
      unfold readR
      rw [getD_set_eq _ _ _ _ hv]
      exact ha
    · unfold readR
      rw [getD_set_ne _ _ _ _ _ hri]
  · rw [set_of_length_le _ _ _ (Nat.le_of_not_lt hv)]

theorem readR_raw_set_mono (h : List Rune) (ref i : Nat) (a : Rune)
    (ha : (readR h ref).raw_score ≤ a.raw_score) :
    (readR h i).raw_score ≤ (readR (h.set ref a) i).raw_score := by
  by_cases hv : ref < h.length
  · by_cases hri : ref = i
    · subst hri
      unfold readR
      rw [getD_set_eq _ _ _ _ hv]
      exact ha
    · unfold readR
      rw [getD_set_ne _ _ _ _ _ hri]
  · rw [set_of_length_le _ _ _ (Nat.le_of_not_lt hv)]

theorem readR_raw_set_zero (h : List Rune) (ref i : Nat) (a : Rune)
    (ha : a.raw_score = 0) (h0 : (readR h i).raw_score = 0) :
    (readR (h.set ref a) i).raw_score = 0 := by
  by_cases hv : ref < h.length
  · by_cases hri : ref = i
    · subst hri
      unfold readR
      rw [getD_set_eq _ _ _ _ hv]
      exact ha
    · unfold readR
      rw [getD_set_ne _ _ _ _ _ hri]
      exact h0
  · rw [set_of_length_le _ _ _ (Nat.le_of_not_lt hv)]
    exact h0

theorem readS_base_set (h : List Stone) (ref i : Nat) (a : Stone)
    (ha : a.base_vectors = (readS h ref).base_vectors) :
    (readS (h.set ref a) i).base_vectors = (readS h i).base_vectors := by
  by_cases hv : ref < h.length
  · by_cases hri : ref = i
    · subst hri
      unfold readS
      rw [getD_set_eq _ _ _ _ hv]
      exact ha
    · unfold readS
      rw [getD_set_ne _ _ _ _ _ hri]
  · rw [set_of_length_le _ _ _ (Nat.le_of_not_lt hv)]

theorem resetPhase_cons (h : List Rune) (r : Nat) (rs : List Nat) :
    resetPhase h (r :: rs) = resetPhase (h.set r { readR h r with raw_score := 0 }) rs := rfl

theorem resetPhase_max (refs : List Nat) (h : List Rune) (i : Nat) :
    (readR (resetPhase h refs) i).max_level = (readR h i).max_level := by
  induction refs generalizing h with
  | nil => rfl
  | cons r rs ih =>
    rw [resetPhase_cons, ih]
    exact readR_max_set h r i _ rfl

theorem resetPhase_raw_zero_pres (refs : List Nat) (h : List Rune) (i : Nat)
    (h0 : (readR h i).raw_score = 0) :
    (readR (resetPhase h refs) i).raw_score = 0 := by
  induction refs generalizing h with
  | nil => exact h0
  | cons r rs ih =>
    rw [resetPhase_cons]
    exact ih _ (readR_raw_set_zero h r i _ rfl h0)

theorem readR_raw_set_self_zero (h : List Rune) (r : Nat) :
    (readR (h.set r { readR h r with raw_score := 0 }) r).raw_score = 0 := by
  by_cases hv : r < h.length
  · unfold readR
    rw [getD_set_eq _ _ _ _ hv]
  · rw [set_of_length_le _ _ _ (Nat.le_of_not_lt hv)]
    unfold readR
    rw [List.getD_eq_getElem?_getD, List.getElem?_eq_none (Nat.le_of_not_lt hv)]
    rfl

theorem resetPhase_raw_zero (refs : List Nat) (h : List Rune) (i : Nat) (hi : i ∈ refs) :
    (readR (resetPhase h refs) i).raw_score = 0 := by
  induction refs generalizing h with
  | nil => simp at hi
  | cons r rs ih =>
    rw [resetPhase_cons]
    rcases List.mem_cons.mp hi with hr | hrs
    · subst hr
      exact resetPhase_raw_zero_pres rs _ i (readR_raw_set_self_zero h i)
    · exact ih _ hrs

theorem addBoost_max (rp : List (Pos × Nat)) (h : List Rune) (t : Pos) (b : Int) (i : Nat) :
    (readR (addBoost rp h t b) i).max_level = (readR h i).max_level := by
  unfold addBoost
  split
  · next ref _ => exact readR_max_set h ref i _ rfl
  · rfl

theorem addBoost_raw_mono (rp : List (Pos × Nat)) (h : List Rune) (t : Pos) (b : Int)
    (i : Nat) (hb : 0 ≤ b) :
    (readR h i).raw_score ≤ (readR (addBoost rp h t b) i).raw_score := by
  unfold addBoost
  split
  · next ref _ =>
    refine readR_raw_set_mono h ref i _ ?_
    simp only
    omega
  · exact le_refl _

theorem applyStone_max (rp : List (Pos × Nat)) (sp : Pos) (st : Stone) (h : List Rune)
    (i : Nat) :
    (readR (applyStone rp sp st h) i).max_level = (readR h i).max_level := by
  unfold applyStone
  generalize get_active_vectors st = vs
  induction vs generalizing h with
  | nil => rfl
  | cons v vt ih =>
    rw [List.foldl_cons, ih, addBoost_max]

theorem applyStone_raw_mono (rp : List (Pos × Nat)) (sp : Pos) (st : Stone) (h : List Rune)
    (i : Nat) (hb : ∀ v ∈ get_active_vectors st, 0 ≤ v.2.2) :
    (readR h i).raw_score ≤ (readR (applyStone rp sp st h) i).raw_score := by
  unfold applyStone
  have hb2 := hb
  revert hb2
  generalize get_active_vectors st = vs
  intro hb2
  induction vs generalizing h with
  | nil => exact le_refl _
  | cons v vt ih =>
    rw [List.foldl_cons]
    refine le_trans
      (addBoost_raw_mono rp h (sp.1 + v.1, sp.2 + v.2.1) v.2.2 i
        (hb2 v (List.mem_cons_self v vt))) ?_
    exact ih (addBoost rp h (sp.1 + v.1, sp.2 + v.2.1) v.2.2)
      (fun w hw => hb2 w (List.mem_cons_of_mem v hw))

theorem active_boosts_nonneg (heap : List Stone) (ref : Nat)
    (hw : ∀ i, ∀ v ∈ (readS heap i).base_vectors, 0 ≤ v.boost) :
    ∀ v ∈ get_active_vectors (readS heap ref), 0 ≤ v.2.2 := by
  intro v hv
  unfold get_active_vectors at hv
  rcases List.mem_map.mp hv with ⟨w, hw2, hveq⟩
  have := hw ref w hw2
  rw [← hveq]
  exact this

theorem boostPhase_max (s : BoardState) (i : Nat) :
    (readR (boostPhase s) i).max_level = (readR s.runeHeap i).max_level := by
  unfold boostPhase
  generalize stonePositionsOf s.grid = es
  rw [← resetPhase_max s.runes s.runeHeap i]
  generalize resetPhase s.runeHeap s.runes = h0
  induction es generalizing h0 with
  | nil => rfl
  | cons e et ih =>
    rw [List.foldl_cons, ih, applyStone_max]

theorem boostPhase_raw_nonneg (s : BoardState)
    (hwS : ∀ i, ∀ v ∈ (readS s.stoneHeap i).base_vectors, 0 ≤ v.boost)
    (i : Nat) (hi : i ∈ s.runes) :
    0 ≤ (readR (boostPhase s) i).raw_score := by
  unfold boostPhase
  have h0 : (readR (resetPhase s.runeHeap s.runes) i).raw_score = 0 :=
    resetPhase_raw_zero s.runes s.runeHeap i hi
  generalize stonePositionsOf s.grid = es
  rw [← h0]
  generalize resetPhase s.runeHeap s.runes = h1
  induction es generalizing h1 with
  | nil => exact le_refl _
  | cons e et ih =>
    rw [List.foldl_cons]
    refine le_trans
      (applyStone_raw_mono (runePositionsOf s.grid) e.1 (readS s.stoneHeap e.2) h1 i
        (active_boosts_nonneg s.stoneHeap e.2 hwS)) ?_
    exact ih (applyStone (runePositionsOf s.grid) e.1 (readS s.stoneHeap e.2) h1)


theorem readR_max_nonneg (h : List Rune) (hw : ∀ r ∈ h, 0 ≤ r.max_level) (i : Nat) :
    0 ≤ (readR h i).max_level := by
  unfold readR
  by_cases hv : i < h.length
  · rw [List.getD_eq_getElem?_getD, List.getElem?_eq_getElem hv]
    exact hw _ (List.getElem_mem hv)
  · rw [List.getD_eq_getElem?_getD, List.getElem?_eq_none (Nat.le_of_not_lt hv)]
    exact le_refl 0

theorem readS_boosts_nonneg (h : List Stone)
    (hw : ∀ st ∈ h, ∀ v ∈ st.base_vectors, 0 ≤ v.boost) (i : Nat) :
    ∀ v ∈ (readS h i).base_vectors, 0 ≤ v.boost := by
  unfold readS
  by_cases hv : i < h.length
  · rw [List.getD_eq_getElem?_getD, List.getElem?_eq_getElem hv]
    exact hw _ (List.getElem_mem hv)
  · rw [List.getD_eq_getElem?_getD, List.getElem?_eq_none (Nat.le_of_not_lt hv)]
    intro v hvv
    simp [zeroStone] at hvv

theorem scoreContrib_nonneg (maxPoss : Int) (r : Rune)
    (h1 : 0 ≤ r.raw_score) (h2 : 0 ≤ r.max_level) :
    0 ≤ scoreContrib maxPoss r (min r.raw_score r.max_level) := by
  unfold scoreContrib
  have hf : (0 : Int) ≤ min r.raw_score r.max_level := le_min h1 h2
  have hfQ : (0 : ℚ) ≤ ((min r.raw_score r.max_level : Int) : ℚ) := by exact_mod_cast hf
  refine add_nonneg (add_nonneg hfQ ?_) ?_
  · split
    · next hc =>
      have hq1 : (0 : ℚ) ≤ ((r.max_level : Int) : ℚ) := by exact_mod_cast h2
      have hq2 : (0 : ℚ) ≤ ((maxPoss : Int) : ℚ) := by exact_mod_cast le_of_lt hc.2
      refine mul_nonneg (mul_nonneg hfQ (div_nonneg hq1 hq2)) ?_
      norm_num
    · exact le_refl 0
  · split
    · norm_num
    · exact le_refl 0

theorem scoreFold_total_nonneg (maxPoss : Int) (refs : List Nat) (acc : List Rune × ℚ)
    (hraw : ∀ i ∈ refs, 0 ≤ (readR acc.1 i).raw_score)
    (hmax : ∀ i ∈ refs, 0 ≤ (readR acc.1 i).max_level)
    (hacc : 0 ≤ acc.2) :
    0 ≤ (refs.foldl (scoreStep maxPoss) acc).2 := by
  induction refs generalizing acc with
  | nil => exact hacc
  | cons r rs ih =>
    rw [List.foldl_cons]
    refine ih (scoreStep maxPoss acc r) ?_ ?_ ?_
    · intro i hi
      rw [(scoreStep_raw_max maxPoss acc r i).1]
      exact hraw i (List.mem_cons_of_mem r hi)
    · intro i hi
      rw [(scoreStep_raw_max maxPoss acc r i).2]
      exact hmax i (List.mem_cons_of_mem r hi)
    · refine add_nonneg hacc ?_
      exact scoreContrib_nonneg maxPoss (readR acc.1 r)
        (hraw r (List.mem_cons_self r rs)) (hmax r (List.mem_cons_self r rs))

theorem calculate_total_score_nonneg (s : BoardState)
    (hwR : ∀ i, 0 ≤ (readR s.runeHeap i).max_level)
    (hwS : ∀ i, ∀ v ∈ (readS s.stoneHeap i).base_vectors, 0 ≤ v.boost) :
    0 ≤ (calculate_total_score s).2 := by
  show 0 ≤ (scorePhase (boostPhase s) s.runes).2
  unfold scorePhase
  refine scoreFold_total_nonneg _ s.runes _ ?_ ?_ (le_refl 0)
  · intro i hi
    exact boostPhase_raw_nonneg s hwS i hi
  · intro i _
    rw [boostPhase_max]
    exact hwR i


theorem mutate_state_misc (s : BoardState) (c : MutChoice) :
    (mutate_in_place s c).1.runeHeap = s.runeHeap ∧
    (∀ i, (readS (mutate_in_place s c).1.stoneHeap i).base_vectors =
      (readS s.stoneHeap i).base_vectors) := by
  cases c with
  | rotate j =>
    cases hi : s.stones[j]? with
    | none => exact ⟨by simp [mutate_in_place, hi], fun i => by simp [mutate_in_place, hi]⟩
    | some ref =>
      refine ⟨by simp [mutate_in_place, hi], fun i => ?_⟩
      simp only [mutate_in_place, hi]
      exact readS_base_set s.stoneHeap ref i _ rfl
  | swap p1 p2 =>
    constructor
    · simp only [mutate_in_place]
      split <;> rfl
    · intro i
      simp only [mutate_in_place]
      split <;> rfl

theorem revert_state_misc (s : BoardState) (u : UndoToken) :
    (revert_mutation s u).runeHeap = s.runeHeap ∧
    (∀ i, (readS (revert_mutation s u).stoneHeap i).base_vectors =
      (readS s.stoneHeap i).base_vectors) := by
  cases u with
  | noop => exact ⟨rfl, fun i => rfl⟩
  | rotToken ref old =>
    refine ⟨rfl, fun i => ?_⟩
    exact readS_base_set s.stoneHeap ref i _ rfl
  | swapToken p1 p2 v1 v2 => exact ⟨rfl, fun i => rfl⟩

theorem calc_state_misc (s : BoardState) :
    (calculate_total_score s).1.stoneHeap = s.stoneHeap ∧
    (calculate_total_score s).1.runes = s.runes ∧
    (calculate_total_score s).1.stones = s.stones ∧
    (∀ i, (readR (calculate_total_score s).1.runeHeap i).max_level =
      (readR s.runeHeap i).max_level) := by
  refine ⟨rfl, rfl, rfl, fun i => ?_⟩
  show (readR (scorePhase (boostPhase s) s.runes).1 i).max_level = _
  unfold scorePhase
  rw [(scoreFold_raw_max _ _ _ i).2]
  exact boostPhase_max s i

theorem placeStep_base (poss : List Pos) (acc : Nat × List (Pos × Occ) × List Stone × List Nat)
    (item : Occ) (i : Nat) :
    (readS (placeStep poss acc item).2.2.1 i).base_vectors =
      (readS acc.2.2.1 i).base_vectors := by
  unfold placeStep
  split
  · cases item with
    | rune r => rfl
    | stone ref => exact readS_base_set acc.2.2.1 ref i _ rfl
  · rfl

theorem create_state_misc (hR : List Rune) (hS : List Stone) (poss : List Pos)
    (rots : List Nat) :
    (create_initial_state hR hS poss rots).runeHeap = hR ∧
    (∀ i, (readS (create_initial_state hR hS poss rots).stoneHeap i).base_vectors =
      (readS hS i).base_vectors) := by
  refine ⟨rfl, fun i => ?_⟩
  show (readS (((List.range hR.length).map Occ.rune ++
      (List.range hS.length).map Occ.stone).foldl (placeStep poss) (0, [], hS, rots)).2.2.1
      i).base_vectors = (readS hS i).base_vectors
  generalize (List.range hR.length).map Occ.rune ++ (List.range hS.length).map Occ.stone = items
  generalize hacc : ((0 : Nat), ([] : List (Pos × Occ)), hS, rots) = acc
  have : acc.2.2.1 = hS := by rw [← hacc]
  rw [← this]
  clear hacc this
  induction items generalizing acc with
  | nil => rfl
  | cons it its ih =>
    rw [List.foldl_cons]
    rw [ih (placeStep poss acc it), placeStep_base]



theorem annealStep_cur_cases (cfg : SolverConfig) (st : SearchState) (c : IterChoice) :
    (annealStep cfg st c).cur = (mutate_in_place st.cur c.mutation).1 ∨
    (annealStep cfg st c).cur =
      (calculate_total_score (mutate_in_place st.cur c.mutation).1).1 ∨
    (annealStep cfg st c).cur =
      revert_mutation (calculate_total_score (mutate_in_place st.cur c.mutation).1).1
        (mutate_in_place st.cur c.mutation).2 := by
  unfold annealStep
  rcases hm : mutate_in_place st.cur c.mutation with ⟨sM, u⟩
  cases u with
  | noop => left; rfl
  | rotToken ref old =>
    simp only [apply_ite (fun s : SearchState => s.cur), ite_self]
    split_ifs <;> first | (right; left; rfl) | (right; right; rfl)
  | swapToken p1 p2 v1 v2 =>
    simp only [apply_ite (fun s : SearchState => s.cur), ite_self]
    split_ifs <;> first | (right; left; rfl) | (right; right; rfl)

theorem annealStep_bestScore_cases (cfg : SolverConfig) (st : SearchState) (c : IterChoice) :
    (annealStep cfg st c).bestScore = st.bestScore ∨
    (annealStep cfg st c).bestScore =
      (calculate_total_score (mutate_in_place st.cur c.mutation).1).2 := by
  unfold annealStep
  rcases hm : mutate_in_place st.cur c.mutation with ⟨sM, u⟩
  cases u with
  | noop => left; rfl
  | rotToken ref old =>
    simp only [apply_ite (fun s : SearchState => s.bestScore)]
    split_ifs <;> first | (left; rfl) | (right; rfl)
  | swapToken p1 p2 v1 v2 =>
    simp only [apply_ite (fun s : SearchState => s.bestScore)]
    split_ifs <;> first | (left; rfl) | (right; rfl)

theorem annealStep_inv (cfg : SolverConfig) (st : SearchState) (c : IterChoice)
    (hR : ∀ i, 0 ≤ (readR st.cur.runeHeap i).max_level)
    (hS : ∀ i, ∀ v ∈ (readS st.cur.stoneHeap i).base_vectors, 0 ≤ v.boost)
    (hB : 0 ≤ st.bestScore) :
    (∀ i, 0 ≤ (readR (annealStep cfg st c).cur.runeHeap i).max_level) ∧
    (∀ i, ∀ v ∈ (readS (annealStep cfg st c).cur.stoneHeap i).base_vectors, 0 ≤ v.boost) ∧
    0 ≤ (annealStep cfg st c).bestScore := by
  have hmis := mutate_state_misc st.cur c.mutation
  have hmR : ∀ i, 0 ≤ (readR (mutate_in_place st.cur c.mutation).1.runeHeap i).max_level := by
    intro i
    rw [hmis.1]
    exact hR i
  have hmS : ∀ i, ∀ v ∈ (readS (mutate_in_place st.cur c.mutation).1.stoneHeap i).base_vectors,
      0 ≤ v.boost := by
    intro i v hv
    rw [hmis.2 i] at hv
    exact hS i v hv
  have hcmis := calc_state_misc (mutate_in_place st.cur c.mutation).1
  have hevR : ∀ i, 0 ≤ (readR
      (calculate_total_score (mutate_in_place st.cur c.mutation).1).1.runeHeap i).max_level := by
    intro i
    rw [hcmis.2.2.2 i]
    exact hmR i
  have hevS : ∀ i, ∀ v ∈ (readS
      (calculate_total_score (mutate_in_place st.cur c.mutation).1).1.stoneHeap i).base_vectors,
      0 ≤ v.boost := by
    intro i
    rw [hcmis.1]
    exact hmS i
  have hrev := revert_state_misc
    (calculate_total_score (mutate_in_place st.cur c.mutation).1).1
    (mutate_in_place st.cur c.mutation).2
  refine ⟨?_, ?_, ?_⟩
  · intro i
    rcases annealStep_cur_cases cfg st c with h | h | h <;> rw [h]
    · exact hmR i
    · exact hevR i
    · rw [show (revert_mutation
          (calculate_total_score (mutate_in_place st.cur c.mutation).1).1
          (mutate_in_place st.cur c.mutation).2).runeHeap =
          (calculate_total_score (mutate_in_place st.cur c.mutation).1).1.runeHeap
          from hrev.1]
      exact hevR i
  · intro i v hv
    rcases annealStep_cur_cases cfg st c with h | h | h <;> rw [h] at hv
    · exact hmS i v hv
    · exact hevS i v hv
    · rw [hrev.2 i] at hv
      exact hevS i v hv
  · rcases annealStep_bestScore_cases cfg st c with h | h <;> rw [h]
    · exact hB
    · exact calculate_total_score_nonneg _ hmR hmS


theorem anneal_fold_inv (cfg : SolverConfig) (draws : Nat → IterChoice) (l : List Nat)
    (st : SearchState)
    (hR : ∀ i, 0 ≤ (readR st.cur.runeHeap i).max_level)
    (hS : ∀ i, ∀ v ∈ (readS st.cur.stoneHeap i).base_vectors, 0 ≤ v.boost)
    (hB : 0 ≤ st.bestScore) :
    0 ≤ (l.foldl (fun st i => annealStep cfg st (draws i)) st).bestScore := by
  induction l generalizing st with
  | nil => exact hB
  | cons x xs ih =>
    rw [List.foldl_cons]
    obtain ⟨h1, h2, h3⟩ := annealStep_inv cfg st (draws x) hR hS hB
    exact ih _ h1 h2 h3

theorem solve_layout_score_nonneg (hR : List Rune) (hS : List Stone) (cfg : SolverConfig)
    (poss : List Pos) (rots : List Nat) (draws : Nat → IterChoice)
    (hwR : ∀ i, 0 ≤ (readR hR i).max_level)
    (hwS : ∀ i, ∀ v ∈ (readS hS i).base_vectors, 0 ≤ v.boost) :
    0 ≤ (solve_layout hR hS cfg poss rots draws).2 := by
  have hcr := create_state_misc hR hS poss rots
  have h0R : ∀ i, 0 ≤ (readR (create_initial_state hR hS poss rots).runeHeap i).max_level := by
    intro i
    rw [hcr.1]
    exact hwR i
  have h0S : ∀ i, ∀ v ∈ (readS (create_initial_state hR hS poss rots).stoneHeap i).base_vectors,
      0 ≤ v.boost := by
    intro i v hv
    rw [hcr.2 i] at hv
    exact hwS i v hv
  have hcm := calc_state_misc (create_initial_state hR hS poss rots)
  have h1R : ∀ i, 0 ≤ (readR
      (calculate_total_score (create_initial_state hR hS poss rots)).1.runeHeap i).max_level := by
    intro i
    rw [hcm.2.2.2 i]
    exact h0R i
  have h1S : ∀ i, ∀ v ∈ (readS
      (calculate_total_score (create_initial_state hR hS poss rots)).1.stoneHeap
      i).base_vectors, 0 ≤ v.boost := by
    intro i
    rw [hcm.1]
    exact h0S i
  have hinit : 0 ≤ (calculate_total_score (create_initial_state hR hS poss rots)).2 :=
    calculate_total_score_nonneg _ h0R h0S
  show 0 ≤ ((List.range cfg.iterations.toNat).foldl
    (fun st i => annealStep cfg st (draws i)) _).bestScore
  exact anneal_fold_inv cfg draws _ _ h1R h1S hinit

theorem freshRunes_max (runes : List Rune) (i : Nat) :
    (readR (freshRunes runes) i).max_level = (readR runes i).max_level := by
  unfold freshRunes readR
  by_cases hv : i < runes.length
  · rw [List.getD_eq_getElem?_getD, List.getElem?_map, List.getElem?_eq_getElem hv,
      List.getD_eq_getElem?_getD, List.getElem?_eq_getElem hv]
    rfl
  · have hv2 : ¬ i < (runes.map (fun r =>
        ({ id := r.id, max_level := r.max_level } : Rune))).length := by
      simpa using hv
    rw [List.getD_eq_getElem?_getD, List.getElem?_eq_none (Nat.le_of_not_lt hv2),
      List.getD_eq_getElem?_getD, List.getElem?_eq_none (Nat.le_of_not_lt hv)]

theorem freshStones_base (stones : List Stone) (i : Nat) :
    (readS (freshStones stones) i).base_vectors = (readS stones i).base_vectors := by
  unfold freshStones readS
  by_cases hv : i < stones.length
  · rw [List.getD_eq_getElem?_getD, List.getElem?_map, List.getElem?_eq_getElem hv,
      List.getD_eq_getElem?_getD, List.getElem?_eq_getElem hv]
    rfl
  · have hv2 : ¬ i < (stones.map (fun t =>
        ({ id := t.id, base_vectors := t.base_vectors } : Stone))).length := by
      simpa using hv
    rw [List.getD_eq_getElem?_getD, List.getElem?_eq_none (Nat.le_of_not_lt hv2),
      List.getD_eq_getElem?_getD, List.getElem?_eq_none (Nat.le_of_not_lt hv)]

theorem restartOutcome_nonneg (runes : List Rune) (stones : List Stone) (cfg : SolverConfig)
    (rand : RestartRand)
    (hR : ∀ r ∈ runes, 0 ≤ r.max_level)
    (hS : ∀ st ∈ stones, ∀ v ∈ st.base_vectors, 0 ≤ v.boost) :
    0 ≤ (restartOutcome runes stones cfg rand).2 := by
  refine solve_layout_score_nonneg _ _ _ _ _ _ ?_ ?_
  · intro i
    rw [freshRunes_max]
    exact readR_max_nonneg runes hR i
  · intro i v hv
    rw [freshStones_base] at hv
    exact readS_boosts_nonneg stones hS i v hv

theorem driver_fold_good (runes : List Rune) (stones : List Stone) (cfg : SolverConfig)
    (rng : Nat → RestartRand)
    (hscore : ∀ i, 0 ≤ (restartOutcome runes stones cfg (rng i)).2) :
    ∀ n : Nat, 1 ≤ n →
      ((List.range n).foldl (restartStep runes stones cfg rng) (none, -1)).1.isSome = true ∧
      0 ≤ ((List.range n).foldl (restartStep runes stones cfg rng) (none, -1)).2 := by
  intro n
  induction n with
  | zero => intro h; omega
  | succ m ih =>
    intro _
    rw [List.range_succ, List.foldl_append, List.foldl_cons, List.foldl_nil]
    by_cases hm : 1 ≤ m
    · obtain ⟨h1, h2⟩ := ih hm
      unfold restartStep
      split
      · exact ⟨rfl, hscore m⟩
      · exact ⟨h1, h2⟩
    · have hm0 : m = 0 := by omega
      subst hm0
      simp only [List.range_zero, List.foldl_nil]
      unfold restartStep
      rw [if_pos ?hc]
      case hc =>
        show (-1 : ℚ) < _
        exact lt_of_lt_of_le (by norm_num) (hscore 0)
      exact ⟨rfl, hscore 0⟩

/-- C10: with well-formed inputs (non-negative boosts on every stone vector
and non-negative max levels, as the data model requires) the scoring
function is non-negative on every board state over such entities, and for
num_restarts at least 1 the first restart's score already exceeds the -1.0
sentinel, so solve_with_restarts always holds a best state at its final
assertion and returns the result of some restart with a score above the
sentinel. -/
theorem C10_score_nonneg_and_driver_safe (runes : List Rune) (stones : List Stone)
    (cfg : SolverConfig) (rng : Nat → RestartRand)
    (hR : ∀ r ∈ runes, 0 ≤ r.max_level)
    (hS : ∀ st ∈ stones, ∀ v ∈ st.base_vectors, 0 ≤ v.boost)
    (hN : 1 ≤ cfg.num_restarts) :
    (∀ s : BoardState, (∀ r ∈ s.runeHeap, 0 ≤ r.max_level) →
      (∀ st ∈ s.stoneHeap, ∀ v ∈ st.base_vectors, 0 ≤ v.boost) →
      0 ≤ (calculate_total_score s).2) ∧
    (solve_with_restarts runes stones cfg rng).1.isSome = true ∧
    -1 < (solve_with_restarts runes stones cfg rng).2 := by
  have hscore : ∀ i, 0 ≤ (restartOutcome runes stones cfg (rng i)).2 := fun i =>
    restartOutcome_nonneg runes stones cfg (rng i) hR hS
  have hgood := driver_fold_good runes stones cfg rng hscore cfg.num_restarts.toNat (by omega)
  refine ⟨?_, ?_, ?_⟩
  · intro s hsR hsS
    exact calculate_total_score_nonneg s (readR_max_nonneg s.runeHeap hsR)
      (readS_boosts_nonneg s.stoneHeap hsS)
  · exact hgood.1
  · exact lt_of_lt_of_le (by norm_num) hgood.2

/-- Witness for C10 at a concrete well-formed input. -/
theorem C10_score_nonneg_and_driver_safe_witness :
    (solve_with_restarts runesEx stonesEx cfgIters0 rngEx).1.isSome = true ∧
    -1 < (solve_with_restarts runesEx stonesEx cfgIters0 rngEx).2 :=
  (C10_score_nonneg_and_driver_safe runesEx stonesEx cfgIters0 rngEx
    (by decide) (by decide) (by decide)).2

end Runes
